import Mathlib

/-!
# Verification of the voxel-world core (`minecraft.py`)

Shallow embedding of the block store, terrain/tree generation, ray casting,
collision resolution and block placement from `src/minecraft.py`.
Continuous quantities (player position, velocity, ray sample points) are
modelled as exact rationals; grid coordinates as integer triples, as in the
source where block positions are integer tuples.
-/

namespace Voxel

/-- Integer grid coordinate, the key of a block (Python tuple `(x, y, z)`). -/
structure Coord where
  x : ℤ
  y : ℤ
  z : ℤ
deriving DecidableEq, Repr

/-- A continuous-space point or vector (positions, velocities, ray points). -/
structure Vec3 where
  x : ℚ
  y : ℚ
  z : ℚ
deriving DecidableEq, Repr

/-- A placed block: position plus block-type tag, as in `Block.__init__`
(`minecraft.py` lines 16-19); the vertex/texture data is rendering-only and
carries no extra state. Types: 1 = Dirt, 2 = Stone, 3 = Wood, 4 = Leaves. -/
structure Block where
  position : Coord
  block_type : ℕ
deriving DecidableEq, Repr

/-- Gravity constant (`GRAVITY = 0.01`, line 13). -/
def GRAVITY : ℚ := 0.01

/-- Terrain footprint constant (`RENDER_DISTANCE = 8`, line 10). -/
def RENDER_DISTANCE : ℤ := 8

/-- `World.add_block` (lines 193-194): appends a new `Block` to the list
`self.blocks`. -/
def add_block (w : List Block) (position : Coord) (block_type : ℕ) : List Block :=
  w ++ [⟨position, block_type⟩]

/-- `World.remove_block` (lines 196-201): scans `self.blocks` in order, pops
the first block whose position matches, returns whether a removal occurred
together with the resulting store. -/
def remove_block : List Block → Coord → Bool × List Block
  | [], _ => (false, [])
  | b :: rest, position =>
    if b.position = position then (true, rest)
    else
      let r := remove_block rest position
      (r.1, b :: r.2)

/-- A sequence of `add_block` calls applied in order to a store. -/
def applyAdds (ops : List (Coord × ℕ)) (w : List Block) : List Block :=
  ops.foldl (fun acc o => add_block acc o.1 o.2) w

theorem applyAdds_eq_append (ops : List (Coord × ℕ)) (w : List Block) :
    applyAdds ops w = w ++ ops.map (fun o => Block.mk o.1 o.2) := by
  induction ops generalizing w with
  | nil => simp [applyAdds]
  | cons o rest ih =>
      simp only [applyAdds, List.foldl_cons, List.map_cons]
      rw [show List.foldl (fun acc o => add_block acc o.1 o.2) (add_block w o.1 o.2) rest
            = applyAdds rest (add_block w o.1 o.2) from rfl, ih]
      simp [add_block]

/-- The entry a first-match scan observes at a coordinate. -/
def firstAt (w : List Block) (c : Coord) : Option Block :=
  w.find? (fun b => b.position = c)

theorem firstAt_applyAdds (ops : List (Coord × ℕ)) (c : Coord) :
    firstAt (applyAdds ops []) c
      = (ops.find? (fun o => o.1 = c)).map (fun o => Block.mk o.1 o.2) := by
  rw [applyAdds_eq_append]
  induction ops with
  | nil => simp [firstAt]
  | cons o rest ih =>
      simp only [List.map_cons, List.nil_append, firstAt] at *
      by_cases h : o.1 = c
      · simp [List.find?_cons, h]
      · simp only [List.find?_cons, h, decide_False]
        simpa [firstAt] using ih

theorem remove_block_not_present (w : List Block) (c : Coord)
    (h : ∀ b ∈ w, b.position ≠ c) : remove_block w c = (false, w) := by
  induction w with
  | nil => rfl
  | cons b rest ih =>
      have hb : b.position ≠ c := h b (List.mem_cons_self _ _)
      simp only [remove_block, if_neg hb,
        ih (fun b' hb' => h b' (List.mem_cons_of_mem _ hb'))]

theorem remove_block_append_last (w : List Block) (c : Coord) (t : ℕ)
    (h : ∀ b ∈ w, b.position ≠ c) :
    remove_block (w ++ [Block.mk c t]) c = (true, w) := by
  induction w with
  | nil => simp [remove_block]
  | cons b rest ih =>
      have hb : b.position ≠ c := h b (List.mem_cons_self _ _)
      have ih' := ih (fun b' hb' => h b' (List.mem_cons_of_mem _ hb'))
      simp only [List.cons_append, remove_block, if_neg hb]
      rw [show rest.append [Block.mk c t] = rest ++ [Block.mk c t] from rfl, ih']

/-- C1, counterexample: after `add((0,0,0), type 1)` then `add((0,0,0), type 2)`
the store holds two entries for the same coordinate (the mapped position list
is not duplicate-free), and the entry observed by a first-match scan has the
type of the FIRST add, not the last. -/
theorem c1_last_write_wins_counterexample :
    ¬ ((applyAdds [(Coord.mk 0 0 0, 1), (Coord.mk 0 0 0, 2)] []).map
        Block.position).Nodup ∧
    firstAt (applyAdds [(Coord.mk 0 0 0, 1), (Coord.mk 0 0 0, 2)] [])
        (Coord.mk 0 0 0) = some (Block.mk (Coord.mk 0 0 0) 1) := by
  constructor
  · decide
  · decide

/-- C1, amended: `add` always appends, so a sequence of adds produces one store
entry per add, in order — an add at an occupied coordinate yields a duplicate
entry instead of replacing it — and the entry observed at a coordinate by a
first-match scan (the order `remove_block` and `ray_cast` use) is determined
by the FIRST add at that coordinate, not the last. -/
theorem c1_add_appends_first_add_wins (ops : List (Coord × ℕ)) (w : List Block)
    (c : Coord) :
    applyAdds ops w = w ++ ops.map (fun o => Block.mk o.1 o.2) ∧
    firstAt (applyAdds ops []) c
      = (ops.find? (fun o => o.1 = c)).map (fun o => Block.mk o.1 o.2) :=
  ⟨applyAdds_eq_append ops w, firstAt_applyAdds ops c⟩

/-- C4: removing at a coordinate holding no block returns `false` and leaves
the store unchanged; after a single add at a not-otherwise-occupied
coordinate, two successive removes there return `true` then `false`, the store
returns to its prior contents, and no block remains at that coordinate. -/
theorem c4_remove_idempotence (w : List Block) (c : Coord) (t : ℕ)
    (h : ∀ b ∈ w, b.position ≠ c) :
    remove_block w c = (false, w) ∧
    remove_block (add_block w c t) c = (true, w) ∧
    remove_block (remove_block (add_block w c t) c).2 c = (false, w) ∧
    ∀ b ∈ (remove_block (add_block w c t) c).2, b.position ≠ c := by
  have h1 := remove_block_not_present w c h
  have h2 := remove_block_append_last w c t h
  refine ⟨h1, h2, ?_, ?_⟩
  · rw [show remove_block (add_block w c t) c = (true, w) from h2]
    exact h1
  · rw [show remove_block (add_block w c t) c = (true, w) from h2]
    exact h

theorem c4_remove_idempotence_witness :
    remove_block [Block.mk (Coord.mk 1 0 0) 2] (Coord.mk 0 0 0)
      = (false, [Block.mk (Coord.mk 1 0 0) 2]) ∧
    remove_block (add_block [Block.mk (Coord.mk 1 0 0) 2] (Coord.mk 0 0 0) 1)
      (Coord.mk 0 0 0) = (true, [Block.mk (Coord.mk 1 0 0) 2]) := by
  have h : ∀ b ∈ [Block.mk (Coord.mk 1 0 0) 2],
      b.position ≠ Coord.mk 0 0 0 := by decide
  exact ⟨(c4_remove_idempotence _ _ 1 h).1, (c4_remove_idempotence _ _ 1 h).2.1⟩

/-- Closed unit-cube containment test, `x <= point[0] <= x + 1` on all three
axes (`World.ray_cast`, lines 219-222); the integer block origin is compared
against the rational sample point. -/
def inCube (c : Coord) (p : Vec3) : Prop :=
  (c.x : ℚ) ≤ p.x ∧ p.x ≤ (c.x : ℚ) + 1 ∧
  (c.y : ℚ) ≤ p.y ∧ p.y ≤ (c.y : ℚ) + 1 ∧
  (c.z : ℚ) ≤ p.z ∧ p.z ≤ (c.z : ℚ) + 1

instance (c : Coord) (p : Vec3) : Decidable (inCube c p) := by
  unfold inCube; infer_instance

/-- The ray point at a given distance, `start_pos + direction * distance`
componentwise (lines 211-215). -/
def samplePoint (start dir : Vec3) (d : ℚ) : Vec3 :=
  ⟨start.x + dir.x * d, start.y + dir.y * d, start.z + dir.z * d⟩

/-- The i-th ray sample, at distance `i / 10` (line 210). -/
def sampleAt (start dir : Vec3) (i : ℕ) : Vec3 :=
  samplePoint start dir ((i : ℚ) / 10)

/-- Number of loop iterations, `range(int(max_distance * 10))` (line 209);
Python `int` truncation agrees with `floor.toNat` for the nonnegative
distances used, and both give an empty range for negative arguments. -/
def ray_steps (maxD : ℚ) : ℕ := (⌊maxD * 10⌋).toNat

/-- The sampling loop of `World.ray_cast` (lines 209-225): at sample index
`i`, the first block (in store order) whose closed unit cube contains the
sample point is returned with the sample distance and the exact sample point;
otherwise the next index is tried, `fuel` counting the remaining indices. -/
def rayCastLoop (blocks : List Block) (start dir : Vec3) :
    ℕ → ℕ → Option (Block × ℚ × Vec3)
  | 0, _ => none
  | fuel + 1, i =>
      let d : ℚ := (i : ℚ) / 10
      let p := samplePoint start dir d
      match blocks.find? (fun b => decide (inCube b.position p)) with
      | some b => some (b, d, p)
      | none => rayCastLoop blocks start dir fuel (i + 1)

/-- `World.ray_cast` (lines 207-225). The Python function returns the triple
`(None, max_distance, None)` on a miss; absence is modelled as `none`, which
is exactly what callers test (`if block:`). -/
def ray_cast (blocks : List Block) (start dir : Vec3) (maxD : ℚ) :
    Option (Block × ℚ × Vec3) :=
  rayCastLoop blocks start dir (ray_steps maxD) 0

theorem rayCastLoop_eq_none (blocks : List Block) (start dir : Vec3) :
    ∀ fuel i,
      (∀ j, i ≤ j → j < i + fuel →
        blocks.find? (fun b => decide (inCube b.position (sampleAt start dir j)))
          = none) →
      rayCastLoop blocks start dir fuel i = none := by
  intro fuel
  induction fuel with
  | zero => intro i _; rfl
  | succ n ih =>
      intro i h
      have h0 := h i le_rfl (by omega)
      simp only [rayCastLoop]
      rw [show samplePoint start dir ((i : ℚ) / 10) = sampleAt start dir i from rfl,
        h0]
      exact ih (i + 1) (fun j hj1 hj2 => h j (by omega) (by omega))

theorem rayCastLoop_eq_some (blocks : List Block) (start dir : Vec3) :
    ∀ fuel i b d p,
      rayCastLoop blocks start dir fuel i = some (b, d, p) →
      ∃ j, i ≤ j ∧ j < i + fuel ∧ d = (j : ℚ) / 10 ∧ p = sampleAt start dir j ∧
        blocks.find? (fun b' => decide (inCube b'.position (sampleAt start dir j)))
          = some b ∧
        ∀ k, i ≤ k → k < j →
          blocks.find?
            (fun b' => decide (inCube b'.position (sampleAt start dir k))) = none := by
  intro fuel
  induction fuel with
  | zero => intro i b d p h; exact absurd h (by simp [rayCastLoop])
  | succ n ih =>
      intro i b d p h
      simp only [rayCastLoop] at h
      rcases hf : blocks.find?
          (fun b' => decide (inCube b'.position (sampleAt start dir i))) with _ | b'
      · rw [show samplePoint start dir ((i : ℚ) / 10) = sampleAt start dir i from rfl,
          hf] at h
        rcases ih (i + 1) b d p h with ⟨j, hj1, hj2, hj3, hj4, hj5, hj6⟩
        exact ⟨j, by omega, by omega, hj3, hj4, hj5, fun k hk1 hk2 => by
          rcases Nat.eq_or_lt_of_le hk1 with rfl | hk
          · exact hf
          · exact hj6 k (by omega) hk2⟩
      · rw [show samplePoint start dir ((i : ℚ) / 10) = sampleAt start dir i from rfl,
          hf] at h
        obtain ⟨hb, hd, hp⟩ : b' = b ∧ (i : ℚ) / 10 = d ∧
            sampleAt start dir i = p := by
          simpa [sampleAt] using h
        subst hb
        exact ⟨i, le_rfl, by omega, hd.symm, hp.symm, hf,
          fun k hk1 hk2 => absurd hk1 (by omega)⟩

theorem rayCastLoop_hit (blocks : List Block) (start dir : Vec3) :
    ∀ fuel i j b, i ≤ j → j < i + fuel →
      (∀ k, i ≤ k → k < j →
        blocks.find?
          (fun b' => decide (inCube b'.position (sampleAt start dir k))) = none) →
      blocks.find?
        (fun b' => decide (inCube b'.position (sampleAt start dir j))) = some b →
      rayCastLoop blocks start dir fuel i
        = some (b, (j : ℚ) / 10, sampleAt start dir j) := by
  intro fuel
  induction fuel with
  | zero => intro i j b h1 h2; omega
  | succ n ih =>
      intro i j b h1 h2 hpre hj
      simp only [rayCastLoop]
      rcases Nat.eq_or_lt_of_le h1 with rfl | hlt
      · rw [show samplePoint start dir ((i : ℚ) / 10) = sampleAt start dir i from
          rfl, hj]
      · rw [show samplePoint start dir ((i : ℚ) / 10) = sampleAt start dir i from
          rfl, hpre i le_rfl hlt]
        exact ih (i + 1) j b (by omega) (by omega)
          (fun k hk1 hk2 => hpre k (by omega) hk2) hj

/-- C3: `ray_cast` samples the ray at distances `i / 10` for
`i < ray_steps maxD`; if no sample lies inside any block's closed unit cube
the result is absent, and a hit is exactly the smallest sample index whose
point lies inside some stored block, returning that block, the sample
distance and the exact sample point; moreover a ray from (0, 1/2, 1/2) aimed
straight at the center of a block placed at (2,0,0) hits that block at
distance 2, which is less than the maximum distance 5. -/
theorem c3_ray_cast_contract (blocks : List Block) (start dir : Vec3) (maxD : ℚ) :
    ((∀ i, i < ray_steps maxD →
        ∀ b ∈ blocks, ¬ inCube b.position (sampleAt start dir i)) →
      ray_cast blocks start dir maxD = none) ∧
    (∀ b d p, ray_cast blocks start dir maxD = some (b, d, p) →
      ∃ i, i < ray_steps maxD ∧ d = (i : ℚ) / 10 ∧ p = sampleAt start dir i ∧
        b ∈ blocks ∧ inCube b.position p ∧
        ∀ j, j < i → ∀ b' ∈ blocks,
          ¬ inCube b'.position (sampleAt start dir j)) ∧
    (ray_cast [Block.mk (Coord.mk 2 0 0) 2] (Vec3.mk 0 (1/2) (1/2))
        (Vec3.mk 1 0 0) 5
      = some (Block.mk (Coord.mk 2 0 0) 2, 2, Vec3.mk 2 (1/2) (1/2)) ∧
      (2 : ℚ) < 5) := by
  refine ⟨?_, ?_, ?_, by norm_num⟩
  · intro h
    refine rayCastLoop_eq_none blocks start dir (ray_steps maxD) 0 ?_
    intro j _ hj2
    rw [List.find?_eq_none]
    intro b hb
    simpa using h j (by omega) b hb
  · intro b d p h
    rcases rayCastLoop_eq_some blocks start dir (ray_steps maxD) 0 b d p h with
      ⟨j, _, hj2, hj3, hj4, hj5, hj6⟩
    refine ⟨j, by omega, hj3, hj4, List.mem_of_find?_eq_some hj5, ?_, ?_⟩
    · have := List.find?_some hj5
      rw [hj4]
      simpa using this
    · intro k hk b' hb'
      have := hj6 k (by omega) hk
      rw [List.find?_eq_none] at this
      simpa using this b' hb'
  · have hsteps : ray_steps 5 = 50 := by
      rw [ray_steps, show ((5 : ℚ) * 10) = ((50 : ℤ) : ℚ) by norm_num,
        Int.floor_intCast]
      rfl
    have hnone : ∀ k, 0 ≤ k → k < 20 →
        ([Block.mk (Coord.mk 2 0 0) 2].find?
          (fun b' => decide (inCube b'.position
            (sampleAt (Vec3.mk 0 (1/2) (1/2)) (Vec3.mk 1 0 0) k)))) = none := by
      intro k _ hk
      rw [List.find?_eq_none]
      intro b hb
      rw [List.mem_singleton] at hb
      subst hb
      simp only [decide_eq_true_eq, inCube, sampleAt, samplePoint]
      intro hcube
      have h1 := hcube.1
      norm_num at h1
      have h2 : (20 : ℚ) ≤ (k : ℚ) := by linarith
      have h3 : (20 : ℕ) ≤ k := by exact_mod_cast h2
      omega
    have hsome : ([Block.mk (Coord.mk 2 0 0) 2].find?
        (fun b' => decide (inCube b'.position
          (sampleAt (Vec3.mk 0 (1/2) (1/2)) (Vec3.mk 1 0 0) 20))))
        = some (Block.mk (Coord.mk 2 0 0) 2) := by
      apply List.find?_cons_of_pos
      simp only [decide_eq_true_eq, inCube, sampleAt, samplePoint]
      norm_num
    have hloop := rayCastLoop_hit [Block.mk (Coord.mk 2 0 0) 2]
      (Vec3.mk 0 (1/2) (1/2)) (Vec3.mk 1 0 0) 50 0 20
      (Block.mk (Coord.mk 2 0 0) 2) (by omega) (by omega)
      (fun k hk1 hk2 => hnone k hk1 hk2) hsome
    have hd : ((20 : ℕ) : ℚ) / 10 = 2 := by norm_num
    have hp : sampleAt (Vec3.mk 0 (1/2) (1/2)) (Vec3.mk 1 0 0) 20
        = Vec3.mk 2 (1/2) (1/2) := by
      simp only [sampleAt, samplePoint]
      norm_num
    rw [show ray_cast [Block.mk (Coord.mk 2 0 0) 2] (Vec3.mk 0 (1/2) (1/2))
        (Vec3.mk 1 0 0) 5
      = rayCastLoop [Block.mk (Coord.mk 2 0 0) 2] (Vec3.mk 0 (1/2) (1/2))
        (Vec3.mk 1 0 0) (ray_steps 5) 0 from rfl, hsteps, hloop, hd, hp]

theorem c3_ray_cast_contract_witness :
    ray_cast [] (Vec3.mk 0 0 0) (Vec3.mk 1 0 0) 5 = none :=
  (c3_ray_cast_contract [] (Vec3.mk 0 0 0) (Vec3.mk 1 0 0) 5).1
    (fun _ _ b hb => absurd hb (List.not_mem_nil b))

/-- Integer half-open interval, Python `range(lo, hi)`. -/
def rangeZ (lo hi : ℤ) : List ℤ :=
  (List.range (hi - lo).toNat).map (fun (i : ℕ) => lo + (i : ℤ))

theorem mem_rangeZ {lo hi a : ℤ} : a ∈ rangeZ lo hi ↔ lo ≤ a ∧ a < hi := by
  simp only [rangeZ, List.mem_map, List.mem_range]
  constructor
  · rintro ⟨i, hi', rfl⟩; omega
  · rintro ⟨h1, h2⟩; exact ⟨(a - lo).toNat, by omega, by omega⟩

/-- A store-update step that only ever appends to its accumulator. -/
def LeftInv {α : Type} (f : List Block → α → List Block) : Prop :=
  ∀ (w w' : List Block) (x : α), f (w ++ w') x = w ++ f w' x

theorem foldl_left_inv {α : Type} {f : List Block → α → List Block}
    (hf : LeftInv f) :
    ∀ (l : List α) (w w' : List Block),
      List.foldl f (w ++ w') l = w ++ List.foldl f w' l := by
  intro l
  induction l with
  | nil => intro w w'; rfl
  | cons x xs ih =>
      intro w w'
      simp only [List.foldl_cons]
      rw [hf w w' x]
      exact ih w (f w' x)

theorem leftInv_foldl {α β : Type} (g : α → List Block → β → List Block)
    (hg : ∀ x, LeftInv (g x)) (l : List β) :
    LeftInv (fun w x => List.foldl (g x) w l) := by
  intro w w' x
  exact foldl_left_inv (hg x) l w w'

theorem mem_foldl_left_inv {α : Type} {f : List Block → α → List Block}
    (hf : LeftInv f) (l : List α) (w : List Block) (b : Block) :
    b ∈ List.foldl f w l ↔ b ∈ w ∨ ∃ x ∈ l, b ∈ f [] x := by
  induction l generalizing w with
  | nil => simp
  | cons x xs ih =>
      simp only [List.foldl_cons]
      rw [ih, show f w x = w ++ f [] x from by
        have := hf w [] x
        rwa [List.append_nil] at this]
      simp only [List.mem_append, List.mem_cons]
      constructor
      · rintro ((h | h) | h)
        · exact Or.inl h
        · exact Or.inr ⟨x, Or.inl rfl, h⟩
        · rcases h with ⟨y, hy, hby⟩; exact Or.inr ⟨y, Or.inr hy, hby⟩
      · rintro (h | ⟨y, hy | hy, hby⟩)
        · exact Or.inl (Or.inl h)
        · subst hy; exact Or.inl (Or.inr hby)
        · exact Or.inr ⟨y, hy, hby⟩

/-- One column of the flat base at (x, z): Stone (type 2) at y = -2 and
y = -1, then Dirt (type 1) at y = 0 (`generate_terrain` inner loop body,
lines 166-171). -/
def base_col (x : ℤ) (w : List Block) (z : ℤ) : List Block :=
  add_block
    ((rangeZ (-2) 0).foldl (fun w y => add_block w (Coord.mk x y z) 2) w)
    (Coord.mk x 0 z) 1

/-- The flat-base part of `World.generate_terrain` (lines 164-171). The
footprint bound is generalized from the constant `RENDER_DISTANCE` to a
`radius` parameter, following the spec's `generate(store, radius)` contract;
the source instantiates `radius = RENDER_DISTANCE = 8`. -/
def base_layer (radius : ℤ) (w : List Block) : List Block :=
  (rangeZ (-radius) radius).foldl (fun w x =>
    List.foldl (base_col x) w (rangeZ (-radius) radius)) w

theorem leftInv_stone (x z : ℤ) :
    LeftInv (fun w y => add_block w (Coord.mk x y z) 2) := by
  intro w w' y
  show add_block (w ++ w') _ _ = _
  simp [add_block]

theorem leftInv_base_col (x : ℤ) : LeftInv (base_col x) := by
  intro w w' z
  simp only [base_col]
  rw [foldl_left_inv (leftInv_stone x z) (rangeZ (-2) 0) w w']
  simp [add_block]

theorem base_col_eval (x z : ℤ) :
    base_col x [] z
    = [Block.mk (Coord.mk x (-2) z) 2, Block.mk (Coord.mk x (-1) z) 2,
       Block.mk (Coord.mk x 0 z) 1] := by
  have hr : rangeZ (-2) 0 = [-2, -1] := by decide
  simp [base_col, hr, add_block]

theorem mem_base_layer (radius : ℤ) (b : Block) :
    b ∈ base_layer radius [] ↔
      ∃ x z : ℤ, -radius ≤ x ∧ x < radius ∧ -radius ≤ z ∧ z < radius ∧
        ((b.block_type = 2 ∧
            (b.position = Coord.mk x (-2) z ∨ b.position = Coord.mk x (-1) z)) ∨
         (b.block_type = 1 ∧ b.position = Coord.mk x 0 z)) := by
  have h1 : b ∈ base_layer radius [] ↔
      ∃ x ∈ rangeZ (-radius) radius,
        b ∈ List.foldl (base_col x) [] (rangeZ (-radius) radius) := by
    rw [base_layer, mem_foldl_left_inv
      (leftInv_foldl base_col leftInv_base_col (rangeZ (-radius) radius))]
    simp
  have h2 : ∀ x : ℤ,
      b ∈ List.foldl (base_col x) [] (rangeZ (-radius) radius) ↔
        ∃ z ∈ rangeZ (-radius) radius, b ∈ base_col x [] z := by
    intro x
    rw [mem_foldl_left_inv (leftInv_base_col x)]
    simp
  obtain ⟨bp, bt⟩ := b
  rw [h1]
  constructor
  · rintro ⟨x, hx, hm⟩
    rcases (h2 x).1 hm with ⟨z, hz, hbm⟩
    rw [base_col_eval] at hbm
    rw [mem_rangeZ] at hx
    rw [mem_rangeZ] at hz
    refine ⟨x, z, hx.1, hx.2, hz.1, hz.2, ?_⟩
    simp only [List.mem_cons, List.not_mem_nil, or_false, Block.mk.injEq] at hbm
    rcases hbm with ⟨h1, h2⟩ | ⟨h1, h2⟩ | ⟨h1, h2⟩
    · exact Or.inl ⟨h2, Or.inl h1⟩
    · exact Or.inl ⟨h2, Or.inr h1⟩
    · exact Or.inr ⟨h2, h1⟩
  · rintro ⟨x, z, hx1, hx2, hz1, hz2, hb⟩
    refine ⟨x, mem_rangeZ.2 ⟨hx1, hx2⟩, ?_⟩
    rw [h2 x]
    refine ⟨z, mem_rangeZ.2 ⟨hz1, hz2⟩, ?_⟩
    rw [base_col_eval]
    simp only [List.mem_cons, List.not_mem_nil, or_false, Block.mk.injEq]
    rcases hb with ⟨h1, h2 | h2⟩ | ⟨h1, h2⟩
    · exact Or.inl ⟨h2, h1⟩
    · exact Or.inr (Or.inl ⟨h2, h1⟩)
    · exact Or.inr (Or.inr ⟨h2, h1⟩)

/-- C6: the base layer holds, for every (x, z) with -radius ≤ x, z < radius,
exactly Stone blocks at y = -2 and y = -1 and a Dirt block at y = 0 and
nothing else, so every base-layer block's y is in {-2, -1, 0}; radius ≤ 0
yields an empty base layer; and at radius 1 the store holds 12 blocks (3 per
column over the 2×2 footprint) with pairwise-distinct coordinates. -/
theorem c6_base_layer (radius : ℤ) :
    (∀ b : Block, b ∈ base_layer radius [] ↔
      ∃ x z : ℤ, -radius ≤ x ∧ x < radius ∧ -radius ≤ z ∧ z < radius ∧
        ((b.block_type = 2 ∧
            (b.position = Coord.mk x (-2) z ∨ b.position = Coord.mk x (-1) z)) ∨
         (b.block_type = 1 ∧ b.position = Coord.mk x 0 z))) ∧
    (∀ b ∈ base_layer radius [],
      b.position.y = -2 ∨ b.position.y = -1 ∨ b.position.y = 0) ∧
    (radius ≤ 0 → base_layer radius [] = []) ∧
    ((base_layer 1 []).length = 12 ∧
      ((base_layer 1 []).map Block.position).Nodup) := by
  refine ⟨mem_base_layer radius, ?_, ?_, by decide, by decide⟩
  · intro b hb
    rcases (mem_base_layer radius b).1 hb with
      ⟨x, z, _, _, _, _, ⟨_, h | h⟩ | ⟨_, h⟩⟩ <;> rw [h] <;> simp
  · intro hr
    have h0 : rangeZ (-radius) radius = [] := by
      simp only [rangeZ, List.map_eq_nil_iff, List.range_eq_nil]
      omega
    rw [base_layer, h0]
    rfl

theorem c6_base_layer_witness :
    base_layer 0 [] = [] ∧
    Block.mk (Coord.mk 0 0 0) 1 ∈ base_layer 1 [] :=
  ⟨(c6_base_layer 0).2.2.1 le_rfl,
    ((c6_base_layer 1).1 (Block.mk (Coord.mk 0 0 0) 1)).2
      ⟨0, 0, by norm_num, by norm_num, by norm_num, by norm_num,
        Or.inr ⟨rfl, rfl⟩⟩⟩

/-- The innermost loop body of the leaf canopy in `World.add_tree`
(lines 184-191): skip both-axis-maximal corners, skip top-layer cells whose
horizontal offset exceeds 1 on either axis, otherwise add a Leaves block
(type 4). `natAbs` is Python's `abs` on these integers. -/
def leaf_step (p : Coord) (dx dy : ℤ) (w : List Block) (dz : ℤ) : List Block :=
  if dx.natAbs = 2 ∧ dz.natAbs = 2 then w
  else if dy = 5 ∧ (1 < dx.natAbs ∨ 1 < dz.natAbs) then w
  else add_block w (Coord.mk (p.x + dx) (p.y + dy) (p.z + dz)) 4

/-- `World.add_tree` (lines 177-191): a trunk of 4 Wood blocks (type 3) at
vertical offsets 0..3 from the origin, then the leaf canopy triple loop over
dx ∈ [-2,2], dy ∈ [3,5], dz ∈ [-2,2]. -/
def add_tree (p : Coord) (w : List Block) : List Block :=
  let w1 := List.foldl
    (fun w (i : ℕ) => add_block w (Coord.mk p.x (p.y + (i : ℤ)) p.z) 3)
    w (List.range 4)
  List.foldl (fun w dx =>
      List.foldl (fun w dy => List.foldl (leaf_step p dx dy) w (rangeZ (-2) 3))
        w (rangeZ 3 6))
    w1 (rangeZ (-2) 3)

/-- `World.generate_terrain` (lines 162-175): the flat base at the source's
fixed radius `RENDER_DISTANCE`, then trees at (2, 1, 2) and (-3, 1, -1). -/
def generate_terrain : List Block :=
  add_tree (Coord.mk (-3) 1 (-1))
    (add_tree (Coord.mk 2 1 2) (base_layer RENDER_DISTANCE []))

theorem leftInv_trunk (p : Coord) :
    LeftInv (fun w (i : ℕ) =>
      add_block w (Coord.mk p.x (p.y + (i : ℤ)) p.z) 3) := by
  intro w w' i
  show add_block (w ++ w') _ _ = _
  simp [add_block]

theorem leftInv_leaf_step (p : Coord) (dx dy : ℤ) :
    LeftInv (leaf_step p dx dy) := by
  intro w w' dz
  simp only [leaf_step]
  split_ifs <;> simp [add_block]

theorem mem_leaf_step (p : Coord) (dx dy dz : ℤ) (b : Block) :
    b ∈ leaf_step p dx dy [] dz ↔
      ¬(dx.natAbs = 2 ∧ dz.natAbs = 2) ∧
      ¬(dy = 5 ∧ (1 < dx.natAbs ∨ 1 < dz.natAbs)) ∧
      b = Block.mk (Coord.mk (p.x + dx) (p.y + dy) (p.z + dz)) 4 := by
  rw [leaf_step]
  split_ifs with h1 h2 <;> simp [add_block, h1, *]

/-- C5: tree generation at an origin adds (besides the prior store contents)
exactly a trunk of 4 Wood blocks at vertical offsets 0..3 above the origin,
and Leaves blocks at horizontal offsets dx, dz ∈ [-2, 2] and vertical offsets
dy ∈ [3, 5], omitting cells whose horizontal offset has magnitude 2 on both
axes, and omitting at the topmost layer (dy = 5) every cell whose horizontal
offset exceeds 1 on either axis. -/
theorem c5_add_tree_shape (p : Coord) (w : List Block) (b : Block) :
    b ∈ add_tree p w ↔ b ∈ w ∨
      (b.block_type = 3 ∧ ∃ i : ℤ, 0 ≤ i ∧ i < 4 ∧
        b.position = Coord.mk p.x (p.y + i) p.z) ∨
      (b.block_type = 4 ∧ ∃ dx dy dz : ℤ,
        -2 ≤ dx ∧ dx ≤ 2 ∧ 3 ≤ dy ∧ dy ≤ 5 ∧ -2 ≤ dz ∧ dz ≤ 2 ∧
        ¬(dx.natAbs = 2 ∧ dz.natAbs = 2) ∧
        ¬(dy = 5 ∧ (1 < dx.natAbs ∨ 1 < dz.natAbs)) ∧
        b.position = Coord.mk (p.x + dx) (p.y + dy) (p.z + dz)) := by
  obtain ⟨bp, bt⟩ := b
  simp only [add_tree]
  rw [mem_foldl_left_inv
    (leftInv_foldl
      (fun dx => fun w dy => List.foldl (leaf_step p dx dy) w (rangeZ (-2) 3))
      (fun dx => leftInv_foldl (leaf_step p dx) (leftInv_leaf_step p dx)
        (rangeZ (-2) 3))
      (rangeZ 3 6)),
    mem_foldl_left_inv (leftInv_trunk p)]
  constructor
  · rintro ((hw | ⟨i, hi, hb⟩) | ⟨dx, hdx, hm⟩)
    · exact Or.inl hw
    · rw [List.mem_range] at hi
      simp only [add_block, List.nil_append, List.mem_singleton,
        Block.mk.injEq] at hb
      exact Or.inr (Or.inl ⟨hb.2, (i : ℤ), by omega, by omega, hb.1⟩)
    · rw [mem_foldl_left_inv
        (leftInv_foldl (leaf_step p dx) (leftInv_leaf_step p dx)
          (rangeZ (-2) 3))] at hm
      simp only [List.not_mem_nil, false_or] at hm
      rcases hm with ⟨dy, hdy, hm⟩
      rw [mem_foldl_left_inv (leftInv_leaf_step p dx dy)] at hm
      simp only [List.not_mem_nil, false_or] at hm
      rcases hm with ⟨dz, hdz, hm⟩
      rw [mem_leaf_step] at hm
      rw [mem_rangeZ] at hdx
      rw [mem_rangeZ] at hdy
      rw [mem_rangeZ] at hdz
      rcases hm with ⟨hc1, hc2, hb⟩
      simp only [Block.mk.injEq] at hb
      exact Or.inr (Or.inr ⟨hb.2, dx, dy, dz, by omega, by omega, by omega,
        by omega, by omega, by omega, hc1, hc2, hb.1⟩)
  · rintro (hw | ⟨ht, i, hi0, hi4, hb⟩ | ⟨ht, dx, dy, dz, h1, h2, h3, h4, h5,
      h6, hc1, hc2, hb⟩)
    · exact Or.inl (Or.inl hw)
    · refine Or.inl (Or.inr ⟨i.toNat, List.mem_range.2 (by omega), ?_⟩)
      simp only [add_block, List.nil_append, List.mem_singleton, Block.mk.injEq]
      refine ⟨?_, ht⟩
      rw [hb]
      simp only [Coord.mk.injEq]
      refine ⟨trivial, ?_, trivial⟩
      omega
    · refine Or.inr ⟨dx, mem_rangeZ.2 ⟨by omega, by omega⟩, ?_⟩
      rw [mem_foldl_left_inv
        (leftInv_foldl (leaf_step p dx) (leftInv_leaf_step p dx)
          (rangeZ (-2) 3))]
      refine Or.inr ⟨dy, mem_rangeZ.2 ⟨by omega, by omega⟩, ?_⟩
      rw [mem_foldl_left_inv (leftInv_leaf_step p dx dy)]
      refine Or.inr ⟨dz, mem_rangeZ.2 ⟨by omega, by omega⟩, ?_⟩
      rw [mem_leaf_step]
      exact ⟨hc1, hc2, by rw [hb, ht]⟩

/-- Player state relevant to collision resolution: continuous position,
velocity and the grounded flag (`Player.__init__`, lines 73-80; rotation and
the selected block do not enter `Player.update`). -/
structure PlayerState where
  position : Vec3
  velocity : Vec3
  on_ground : Bool
deriving DecidableEq, Repr

/-- Player AABB height, `self.height = 1.8` (line 78). -/
def height : ℚ := 1.8

/-- Velocity integration, `Player.update` lines 84-86. -/
def integrate (st : PlayerState) : PlayerState :=
  { st with position := ⟨st.position.x + st.velocity.x,
                         st.position.y + st.velocity.y,
                         st.position.z + st.velocity.z⟩ }

/-- Gravity when airborne (`Player.update` lines 89-90). -/
def apply_gravity (st : PlayerState) : PlayerState :=
  if !st.on_ground then
    { st with velocity := ⟨st.velocity.x, st.velocity.y - GRAVITY,
                           st.velocity.z⟩ }
  else st

/-- Grounded state is recomputed from scratch each tick (line 100). -/
def clear_grounded (st : PlayerState) : PlayerState :=
  { st with on_ground := false }

/-- Ground contact (lines 107-111): feet in the band [top, top + 0.1] snap to
the block's top face, vertical velocity zeroed, grounded set. -/
def ground_snap (bp : Coord) (st : PlayerState) : PlayerState :=
  if st.position.y ≥ (bp.y : ℚ) + 1 ∧ st.position.y ≤ (bp.y : ℚ) + 1.1 then
    { position := ⟨st.position.x, (bp.y : ℚ) + 1, st.position.z⟩,
      velocity := ⟨st.velocity.x, 0, st.velocity.z⟩,
      on_ground := true }
  else st

/-- Ceiling contact (lines 114-117). -/
def ceiling_snap (bp : Coord) (st : PlayerState) : PlayerState :=
  if st.position.y + height ≥ (bp.y : ℚ) ∧
     st.position.y + height ≤ (bp.y : ℚ) + 0.1 then
    { st with position := ⟨st.position.x, (bp.y : ℚ) - height, st.position.z⟩,
              velocity := ⟨st.velocity.x, 0, st.velocity.z⟩ }
  else st

/-- X-axis push against the block's low-x face (lines 123-126). -/
def side_push_xp (bp : Coord) (st : PlayerState) : PlayerState :=
  if st.position.x + 0.3 ≥ (bp.x : ℚ) ∧
     st.position.x + 0.3 ≤ (bp.x : ℚ) + 0.1 then
    { st with position := ⟨(bp.x : ℚ) - 0.3, st.position.y, st.position.z⟩,
              velocity := ⟨0, st.velocity.y, st.velocity.z⟩ }
  else st

/-- X-axis push against the block's high-x face (lines 127-130). -/
def side_push_xn (bp : Coord) (st : PlayerState) : PlayerState :=
  if st.position.x - 0.3 ≤ (bp.x : ℚ) + 1 ∧
     st.position.x - 0.3 ≥ (bp.x : ℚ) + 0.9 then
    { st with position := ⟨(bp.x : ℚ) + 1.3, st.position.y, st.position.z⟩,
              velocity := ⟨0, st.velocity.y, st.velocity.z⟩ }
  else st

/-- Z-axis push against the block's low-z face (lines 133-136). -/
def side_push_zp (bp : Coord) (st : PlayerState) : PlayerState :=
  if st.position.z + 0.3 ≥ (bp.z : ℚ) ∧
     st.position.z + 0.3 ≤ (bp.z : ℚ) + 0.1 then
    { st with position := ⟨st.position.x, st.position.y, (bp.z : ℚ) - 0.3⟩,
              velocity := ⟨st.velocity.x, st.velocity.y, 0⟩ }
  else st

/-- Z-axis push against the block's high-z face (lines 137-140). -/
def side_push_zn (bp : Coord) (st : PlayerState) : PlayerState :=
  if st.position.z - 0.3 ≤ (bp.z : ℚ) + 1 ∧
     st.position.z - 0.3 ≥ (bp.z : ℚ) + 0.9 then
    { st with position := ⟨st.position.x, st.position.y, (bp.z : ℚ) + 1.3⟩,
              velocity := ⟨st.velocity.x, st.velocity.y, 0⟩ }
  else st

/-- The four side pushes under the vertical-overlap guard (lines 120-140),
each reading the state as mutated by the previous one. -/
def side_pushes (bp : Coord) (st : PlayerState) : PlayerState :=
  if st.position.y + 0.1 < (bp.y : ℚ) + 1 ∧
     st.position.y + height - 0.1 > (bp.y : ℚ) then
    side_push_zn bp (side_push_zp bp (side_push_xn bp (side_push_xp bp st)))
  else st

/-- One iteration of the collision loop (lines 101-140): corrections apply
only when the block's footprint overlaps the player's horizontal footprint
(half-extent 0.3). -/
def collide_block (st : PlayerState) (bp : Coord) : PlayerState :=
  if (bp.x : ℚ) ≤ st.position.x + 0.3 ∧
     (bp.x : ℚ) + 1 ≥ st.position.x - 0.3 ∧
     (bp.z : ℚ) ≤ st.position.z + 0.3 ∧
     (bp.z : ℚ) + 1 ≥ st.position.z - 0.3 then
    side_pushes bp (ceiling_snap bp (ground_snap bp st))
  else st

/-- The collision loop over the whole store in iteration order (line 101). -/
def collide_all (world : List Block) (st : PlayerState) : PlayerState :=
  world.foldl (fun st b => collide_block st b.position) st

/-- Fall-safety reset (lines 143-145): below y = -10, teleport to the fixed
spawn (0, 2, 0) and zero the velocity. -/
def fall_safety (st : PlayerState) : PlayerState :=
  if st.position.y < -10 then
    { st with position := ⟨0, 2, 0⟩, velocity := ⟨0, 0, 0⟩ }
  else st

/-- Horizontal damping and snap-to-zero (lines 148-154). -/
def damp (st : PlayerState) : PlayerState :=
  let st1 : PlayerState :=
    { st with velocity := ⟨st.velocity.x * 0.8, st.velocity.y,
                           st.velocity.z * 0.8⟩ }
  let st2 : PlayerState :=
    if |st1.velocity.x| < 0.01 then
      { st1 with velocity := ⟨0, st1.velocity.y, st1.velocity.z⟩ }
    else st1
  if |st2.velocity.z| < 0.01 then
    { st2 with velocity := ⟨st2.velocity.x, st2.velocity.y, 0⟩ }
  else st2

/-- The resolution pass of `Player.update` after velocity integration
(lines 88-154): gravity, grounded recomputation, the collision loop, the
fall-safety net and damping, in source order. -/
def resolve_pass (world : List Block) (st : PlayerState) : PlayerState :=
  damp (fall_safety (collide_all world (clear_grounded (apply_gravity st))))

/-- `Player.update` in full (lines 82-154). -/
def player_update (world : List Block) (st : PlayerState) : PlayerState :=
  resolve_pass world (integrate st)

theorem ground_snap_y_le (bp : Coord) (st : PlayerState) :
    (ground_snap bp st).position.y ≤ st.position.y := by
  rw [ground_snap]
  split_ifs with h
  · exact h.1
  · exact le_rfl

theorem ceiling_snap_y_le (bp : Coord) (st : PlayerState) :
    (ceiling_snap bp st).position.y ≤ st.position.y := by
  rw [ceiling_snap]
  split_ifs with h
  · have := h.1
    show (bp.y : ℚ) - height ≤ st.position.y
    linarith
  · exact le_rfl

theorem side_pushes_y_eq (bp : Coord) (st : PlayerState) :
    (side_pushes bp st).position.y = st.position.y := by
  rw [side_pushes]
  split_ifs with h
  · rw [side_push_zn]
    split_ifs <;> rw [side_push_zp] <;>
      split_ifs <;> rw [side_push_xn] <;>
        split_ifs <;> rw [side_push_xp] <;> split_ifs <;> rfl
  · rfl

theorem collide_block_y_le (st : PlayerState) (bp : Coord) :
    (collide_block st bp).position.y ≤ st.position.y := by
  rw [collide_block]
  split_ifs with h
  · rw [side_pushes_y_eq]
    exact le_trans (ceiling_snap_y_le bp (ground_snap bp st))
      (ground_snap_y_le bp st)
  · exact le_rfl

theorem collide_all_y_le (world : List Block) (st : PlayerState) :
    (collide_all world st).position.y ≤ st.position.y := by
  induction world generalizing st with
  | nil => exact le_rfl
  | cons b rest ih =>
      exact le_trans (ih (collide_block st b.position))
        (collide_block_y_le st b.position)

theorem apply_gravity_position (st : PlayerState) :
    (apply_gravity st).position = st.position := by
  rw [apply_gravity]; split_ifs <;> rfl

theorem damp_of_zero_velocity (p : Vec3) (g : Bool) :
    damp ⟨p, ⟨0, 0, 0⟩, g⟩ = ⟨p, ⟨0, 0, 0⟩, g⟩ := by
  rw [damp]
  norm_num

/-- C9: whatever the store contents, a resolution pass on any player state
whose y-coordinate is below -10 ends at the fixed spawn point (0, 2, 0) with
all three velocity components zero: gravity does not move the position, every
collision correction can only lower y, so the fall-safety reset fires and
damping leaves the zeroed velocity at zero. -/
theorem c9_fall_safety_reset (world : List Block) (st : PlayerState)
    (h : st.position.y < -10) :
    (resolve_pass world st).position = Vec3.mk 0 2 0 ∧
    (resolve_pass world st).velocity = Vec3.mk 0 0 0 := by
  have h1 : (clear_grounded (apply_gravity st)).position = st.position := by
    rw [clear_grounded]
    exact apply_gravity_position st
  have h2 : (collide_all world (clear_grounded (apply_gravity st))).position.y
      < -10 := by
    calc (collide_all world (clear_grounded (apply_gravity st))).position.y
        ≤ (clear_grounded (apply_gravity st)).position.y :=
          collide_all_y_le _ _
      _ = st.position.y := by rw [h1]
      _ < -10 := h
  have h3 : fall_safety (collide_all world (clear_grounded (apply_gravity st)))
      = { collide_all world (clear_grounded (apply_gravity st)) with
          position := ⟨0, 2, 0⟩, velocity := ⟨0, 0, 0⟩ } := by
    rw [fall_safety, if_pos h2]
  rw [resolve_pass, h3, damp_of_zero_velocity]
  exact ⟨rfl, rfl⟩

theorem c9_fall_safety_reset_witness :
    (resolve_pass [] ⟨⟨0, -11, 0⟩, ⟨0, 0, 0⟩, false⟩).position
      = Vec3.mk 0 2 0 ∧
    (resolve_pass [] ⟨⟨0, -11, 0⟩, ⟨0, 0, 0⟩, false⟩).velocity
      = Vec3.mk 0 0 0 :=
  c9_fall_safety_reset [] ⟨⟨0, -11, 0⟩, ⟨0, 0, 0⟩, false⟩ (by norm_num)

theorem damp_preserves (st : PlayerState) :
    (damp st).position = st.position ∧ (damp st).velocity.y = st.velocity.y ∧
    (damp st).on_ground = st.on_ground := by
  rw [damp]
  split_ifs <;> exact ⟨rfl, rfl, rfl⟩

/-- C7: a player whose feet start exactly 0.05 above the top face of a block
overlapping its horizontal footprint, carrying downward vertical velocity,
resolves in one pass to feet exactly at the top face, zero vertical velocity
and grounded = true (the fall-safety bound only asks the top face not to lie
below the reset height). -/
theorem c7_ground_snap (bp : Coord) (bt : ℕ) (px pz vx vy vz : ℚ) (g : Bool)
    (_hvy : vy < 0)
    (hx1 : (bp.x : ℚ) ≤ px + 0.3) (hx2 : (bp.x : ℚ) + 1 ≥ px - 0.3)
    (hz1 : (bp.z : ℚ) ≤ pz + 0.3) (hz2 : (bp.z : ℚ) + 1 ≥ pz - 0.3)
    (hy : (-10 : ℚ) ≤ (bp.y : ℚ) + 1) :
    (resolve_pass [Block.mk bp bt]
        ⟨⟨px, (bp.y : ℚ) + 1 + 0.05, pz⟩, ⟨vx, vy, vz⟩, g⟩).position.y
      = (bp.y : ℚ) + 1 ∧
    (resolve_pass [Block.mk bp bt]
        ⟨⟨px, (bp.y : ℚ) + 1 + 0.05, pz⟩, ⟨vx, vy, vz⟩, g⟩).velocity.y = 0 ∧
    (resolve_pass [Block.mk bp bt]
        ⟨⟨px, (bp.y : ℚ) + 1 + 0.05, pz⟩, ⟨vx, vy, vz⟩, g⟩).on_ground
      = true := by
  obtain ⟨w, hw⟩ : ∃ w, clear_grounded (apply_gravity
      ⟨⟨px, (bp.y : ℚ) + 1 + 0.05, pz⟩, ⟨vx, vy, vz⟩, g⟩)
      = ⟨⟨px, (bp.y : ℚ) + 1 + 0.05, pz⟩, ⟨vx, w, vz⟩, false⟩ := by
    rw [apply_gravity]
    split_ifs <;> exact ⟨_, rfl⟩
  have hgs : ground_snap bp ⟨⟨px, (bp.y : ℚ) + 1 + 0.05, pz⟩, ⟨vx, w, vz⟩,
      false⟩ = ⟨⟨px, (bp.y : ℚ) + 1, pz⟩, ⟨vx, 0, vz⟩, true⟩ := by
    rw [ground_snap, if_pos]
    exact ⟨by show (bp.y : ℚ) + 1 + 0.05 ≥ (bp.y : ℚ) + 1; linarith,
      by show (bp.y : ℚ) + 1 + 0.05 ≤ (bp.y : ℚ) + 1.1; linarith⟩
  have hcs : ceiling_snap bp ⟨⟨px, (bp.y : ℚ) + 1, pz⟩, ⟨vx, 0, vz⟩, true⟩
      = ⟨⟨px, (bp.y : ℚ) + 1, pz⟩, ⟨vx, 0, vz⟩, true⟩ := by
    rw [ceiling_snap, if_neg]
    intro hcc
    have h2 : (bp.y : ℚ) + 1 + height ≤ (bp.y : ℚ) + 0.1 := hcc.2
    rw [height] at h2
    linarith
  have hsp : side_pushes bp ⟨⟨px, (bp.y : ℚ) + 1, pz⟩, ⟨vx, 0, vz⟩, true⟩
      = ⟨⟨px, (bp.y : ℚ) + 1, pz⟩, ⟨vx, 0, vz⟩, true⟩ := by
    rw [side_pushes, if_neg]
    intro hcc
    have h1 : (bp.y : ℚ) + 1 + 0.1 < (bp.y : ℚ) + 1 := hcc.1
    linarith
  have hca : collide_all [Block.mk bp bt]
      ⟨⟨px, (bp.y : ℚ) + 1 + 0.05, pz⟩, ⟨vx, w, vz⟩, false⟩
      = ⟨⟨px, (bp.y : ℚ) + 1, pz⟩, ⟨vx, 0, vz⟩, true⟩ := by
    show collide_block ⟨⟨px, (bp.y : ℚ) + 1 + 0.05, pz⟩, ⟨vx, w, vz⟩, false⟩
      bp = _
    rw [collide_block, if_pos ⟨hx1, hx2, hz1, hz2⟩, hgs, hcs, hsp]
  have hfs : fall_safety ⟨⟨px, (bp.y : ℚ) + 1, pz⟩, ⟨vx, 0, vz⟩, true⟩
      = ⟨⟨px, (bp.y : ℚ) + 1, pz⟩, ⟨vx, 0, vz⟩, true⟩ := by
    rw [fall_safety, if_neg]
    show ¬((bp.y : ℚ) + 1 < -10)
    linarith
  have hd := damp_preserves ⟨⟨px, (bp.y : ℚ) + 1, pz⟩, ⟨vx, 0, vz⟩, true⟩
  rw [resolve_pass, hw, hca, hfs]
  exact ⟨by rw [hd.1], hd.2.1, hd.2.2⟩

theorem c7_ground_snap_witness :
    (resolve_pass [Block.mk (Coord.mk 0 0 0) 1]
        ⟨⟨1/2, 1 + 0.05, 1/2⟩, ⟨0, -(1/100), 0⟩, false⟩).position.y = 1 ∧
    (resolve_pass [Block.mk (Coord.mk 0 0 0) 1]
        ⟨⟨1/2, 1 + 0.05, 1/2⟩, ⟨0, -(1/100), 0⟩, false⟩).velocity.y = 0 ∧
    (resolve_pass [Block.mk (Coord.mk 0 0 0) 1]
        ⟨⟨1/2, 1 + 0.05, 1/2⟩, ⟨0, -(1/100), 0⟩, false⟩).on_ground = true := by
  have h := c7_ground_snap (Coord.mk 0 0 0) 1 (1/2) (1/2) 0 (-(1/100)) 0 false
    (by norm_num) (by norm_num) (by norm_num) (by norm_num) (by norm_num)
    (by norm_num)
  norm_num at h ⊢
  exact h

/-- Face detection of `Game.handle_input` (lines 306-321): the if/elif chain
over the hit point's local offsets, in source order x-low, x-high, y-low,
y-high, z-low, z-high. The chain has no else branch; `none` models the
fall-through in which the Python local `new_pos` is never assigned. -/
def adjacent_pos (bp : Coord) (hit : Vec3) : Option Coord :=
  let rel_x := hit.x - (bp.x : ℚ)
  let rel_y := hit.y - (bp.y : ℚ)
  let rel_z := hit.z - (bp.z : ℚ)
  if rel_x < 0.01 then some ⟨bp.x - 1, bp.y, bp.z⟩
  else if rel_x > 0.99 then some ⟨bp.x + 1, bp.y, bp.z⟩
  else if rel_y < 0.01 then some ⟨bp.x, bp.y - 1, bp.z⟩
  else if rel_y > 0.99 then some ⟨bp.x, bp.y + 1, bp.z⟩
  else if rel_z < 0.01 then some ⟨bp.x, bp.y, bp.z - 1⟩
  else if rel_z > 0.99 then some ⟨bp.x, bp.y, bp.z + 1⟩
  else none

/-- The overlap test of `Game.handle_input` lines 332-335: the target cell's
closed unit cube against the player AABB (horizontal half-extent 0.3, height
1.8 above the feet position). -/
def overlaps_player (np : Coord) (p : Vec3) : Prop :=
  (np.x : ℚ) ≤ p.x + 0.3 ∧ (np.x : ℚ) + 1 ≥ p.x - 0.3 ∧
  (np.y : ℚ) ≤ p.y + height ∧ (np.y : ℚ) + 1 ≥ p.y ∧
  (np.z : ℚ) ≤ p.z + 0.3 ∧ (np.z : ℚ) + 1 ≥ p.z - 0.3

instance (np : Coord) (p : Vec3) : Decidable (overlaps_player np p) := by
  unfold overlaps_player; infer_instance

/-- The secondary-action (right click, place) branch of `Game.handle_input`
(lines 303-338), given the ray hit's block coordinate and exact hit point:
face detection, then the player-overlap check, then `add_block`. When the
face-detection chain falls through, the Python code reads the unassigned
local `new_pos` and raises `UnboundLocalError`; that crash is modelled as
`Except.error ()`. -/
def place_action (world : List Block) (ppos : Vec3) (bp : Coord) (hit : Vec3)
    (selected : ℕ) : Except Unit (List Block) :=
  match adjacent_pos bp hit with
  | none => Except.error ()
  | some np =>
      if overlaps_player np ppos then Except.ok world
      else Except.ok (add_block world np selected)

/-- Whether an axis offset passes the 0.01-epsilon face test of the source's
chain (near the 0 face or near the 1 face). -/
def face_eps (r : ℚ) : Prop := r < 0.01 ∨ r > 0.99

/-- C8: when exactly one axis passes the epsilon face test, the chain steps
one unit outward on that axis (toward the low face when the offset is below
0.01, toward the high face when it is above 0.99); in particular a hit block
at (0,0,0) with hit point (0, 0.5, 0) yields placement coordinate
(-1, 0, 0). -/
theorem c8_face_detection :
    (∀ (bp : Coord) (hit : Vec3),
      (face_eps (hit.x - (bp.x : ℚ)) → ¬ face_eps (hit.y - (bp.y : ℚ)) →
        ¬ face_eps (hit.z - (bp.z : ℚ)) →
        (hit.x - (bp.x : ℚ) < 0.01 ∧
            adjacent_pos bp hit = some ⟨bp.x - 1, bp.y, bp.z⟩) ∨
        (hit.x - (bp.x : ℚ) > 0.99 ∧
            adjacent_pos bp hit = some ⟨bp.x + 1, bp.y, bp.z⟩)) ∧
      (¬ face_eps (hit.x - (bp.x : ℚ)) → face_eps (hit.y - (bp.y : ℚ)) →
        ¬ face_eps (hit.z - (bp.z : ℚ)) →
        (hit.y - (bp.y : ℚ) < 0.01 ∧
            adjacent_pos bp hit = some ⟨bp.x, bp.y - 1, bp.z⟩) ∨
        (hit.y - (bp.y : ℚ) > 0.99 ∧
            adjacent_pos bp hit = some ⟨bp.x, bp.y + 1, bp.z⟩)) ∧
      (¬ face_eps (hit.x - (bp.x : ℚ)) → ¬ face_eps (hit.y - (bp.y : ℚ)) →
        face_eps (hit.z - (bp.z : ℚ)) →
        (hit.z - (bp.z : ℚ) < 0.01 ∧
            adjacent_pos bp hit = some ⟨bp.x, bp.y, bp.z - 1⟩) ∨
        (hit.z - (bp.z : ℚ) > 0.99 ∧
            adjacent_pos bp hit = some ⟨bp.x, bp.y, bp.z + 1⟩))) ∧
    adjacent_pos (Coord.mk 0 0 0) (Vec3.mk 0 (1/2) 0)
      = some (Coord.mk (-1) 0 0) := by
  constructor
  · intro bp hit
    rw [face_eps, face_eps, face_eps]
    refine ⟨?_, ?_, ?_⟩
    · rintro (hx | hx) hy hz
      · exact Or.inl ⟨hx, by rw [adjacent_pos]; rw [if_pos hx]⟩
      · refine Or.inr ⟨hx, ?_⟩
        rw [adjacent_pos]
        rw [if_neg (by push_neg at hy hz ⊢; linarith), if_pos hx]
    · rintro hx (hy | hy) hz <;> push_neg at hx hz
      · refine Or.inl ⟨hy, ?_⟩
        rw [adjacent_pos]
        rw [if_neg (by linarith), if_neg (by push_neg; linarith), if_pos hy]
      · refine Or.inr ⟨hy, ?_⟩
        rw [adjacent_pos]
        rw [if_neg (by linarith), if_neg (by push_neg; linarith),
          if_neg (by linarith), if_pos hy]
    · rintro hx hy (hz | hz) <;> push_neg at hx hy
      · refine Or.inl ⟨hz, ?_⟩
        rw [adjacent_pos]
        rw [if_neg (by linarith), if_neg (by push_neg; linarith),
          if_neg (by linarith), if_neg (by push_neg; linarith), if_pos hz]
      · refine Or.inr ⟨hz, ?_⟩
        rw [adjacent_pos]
        rw [if_neg (by linarith), if_neg (by push_neg; linarith),
          if_neg (by linarith), if_neg (by push_neg; linarith),
          if_neg (by linarith), if_pos hz]
  · rw [adjacent_pos]
    norm_num

theorem c8_face_detection_witness :
    adjacent_pos (Coord.mk 0 0 0) (Vec3.mk (1/200) (1/2) (1/2))
      = some (Coord.mk (-1) 0 0) := by
  rcases (c8_face_detection.1 (Coord.mk 0 0 0) (Vec3.mk (1/200) (1/2) (1/2))).1
    (by rw [face_eps]; norm_num)
    (by rw [face_eps]; norm_num)
    (by rw [face_eps]; norm_num) with ⟨_, h2⟩ | ⟨h1, _⟩
  · exact h2
  · norm_num at h1

/-- C10: the secondary (place) action adds a block only when the target
cell's unit cube does not overlap the player's AABB (half-extent 0.3
horizontally, height 1.8 above the feet): an overlapping target leaves the
store unchanged, a non-overlapping one appends exactly the selected block at
the target cell. -/
theorem c10_place_respects_player_aabb (world : List Block) (ppos : Vec3)
    (bp : Coord) (hit : Vec3) (selected : ℕ) (np : Coord)
    (hnp : adjacent_pos bp hit = some np) :
    (overlaps_player np ppos →
      place_action world ppos bp hit selected = Except.ok world) ∧
    (¬ overlaps_player np ppos →
      place_action world ppos bp hit selected
        = Except.ok (world ++ [Block.mk np selected])) := by
  constructor
  · intro hov
    rw [place_action, hnp]
    simp only [if_pos hov]
  · intro hov
    rw [place_action, hnp]
    simp only [if_neg hov, add_block]

theorem c10_place_respects_player_aabb_witness :
    place_action [] (Vec3.mk 0 0 0) (Coord.mk 0 0 0) (Vec3.mk 0 (1/2) 0) 1
      = Except.ok [] := by
  have hnp : adjacent_pos (Coord.mk 0 0 0) (Vec3.mk 0 (1/2) 0)
      = some (Coord.mk (-1) 0 0) := by
    rw [adjacent_pos]
    norm_num
  refine (c10_place_respects_player_aabb [] (Vec3.mk 0 0 0) (Coord.mk 0 0 0)
    (Vec3.mk 0 (1/2) 0) 1 (Coord.mk (-1) 0 0) hnp).1 ?_
  rw [overlaps_player, height]
  norm_num

/-- C2: when no axis of the hit point's local offset passes the epsilon face
test — e.g. a hit point at the center of the hit block's cube — the Python
placement code falls through the if/elif chain with its local `new_pos`
unassigned and the subsequent read raises `UnboundLocalError`; the action is
not silently dropped, the modelled result is the error case. -/
theorem c2_degenerate_placement_raises :
    place_action [] (Vec3.mk 0 0 0) (Coord.mk 0 0 0) (Vec3.mk (1/2) (1/2) (1/2))
      1 = Except.error () := by
  have hnp : adjacent_pos (Coord.mk 0 0 0) (Vec3.mk (1/2) (1/2) (1/2))
      = none := by
    rw [adjacent_pos]
    norm_num
  rw [place_action, hnp]

end Voxel
